import Mathlib

/-!
Formal model of `examples/alarm_clock.py` (Cozmo alarm clock example).

The script parses an optional alarm time from the command line
(`extract_time_from_args` / `convert_to_time_int`), renders a clock face
(`make_clock_image`, `make_text_image`, `draw_clock_hand`) and runs a polling
loop (`alarm_clock`) that edge-detects the crossing of the alarm time and
performs the wake-up announcement off the charger
(`perform_operation_off_charger`).

Times are modelled as triples of naturals (`datetime.time` fields), Python
strings as `List Char`, Python floats as exact reals (`ℝ`) or rationals (`ℚ`),
and the fallible parser as an `Option`-valued function (a raised-and-caught
`ValueError` becomes `none`).
-/

namespace AlarmClock

/-! ### Data model: time of day -/

/-- A time of day, mirroring the `hour`/`minute`/`second` fields of
`datetime.time` (the `alarm_time` and the sampled `current_time` values). -/
structure Time where
  hour : Nat
  minute : Nat
  second : Nat
deriving DecidableEq

/-- The comparison `current_time < alarm_time` used at line 285:
`datetime.time.__lt__` compares the field triples lexicographically. -/
def timeLt (a b : Time) : Bool :=
  decide (a.hour < b.hour) ||
    (decide (a.hour = b.hour) &&
      (decide (a.minute < b.minute) ||
        (decide (a.minute = b.minute) && decide (a.second < b.second))))

/-- Non-decreasing order on sampled times, written through `timeLt` the way the
loop only ever compares times: `a` at-or-before `b` iff not `b < a`. -/
def timeLe (a b : Time) : Prop := timeLt b a = false

/-- Default value used only to state positions in lists of times. -/
def dummyTime : Time := ⟨0, 0, 0⟩

/-! ### Alarm loop edge detect (`alarm_clock`, lines 275-293) -/

/-- One iteration of the alarm check (lines 283-287): given the configured
`alarm_time`, the carried flag `was_before_alarm_time` and the sampled
`current_time`, returns `(do_alarm, new was_before_alarm_time)`. -/
def alarm_tick (alarm_time : Time) (was_before_alarm_time : Bool)
    (current_time : Time) : Bool × Bool :=
  let is_before_alarm_time := timeLt current_time alarm_time
  (was_before_alarm_time && !is_before_alarm_time, is_before_alarm_time)

/-- The stream of `do_alarm` decisions the loop takes over a sequence of
sampled clock times, starting from a given `was_before_alarm_time` flag
(the loop initialises it to `false` at line 275). -/
def alarm_fires (alarm_time : Time) : Bool → List Time → List Bool
  | _, [] => []
  | was_before, current_time :: rest =>
    (alarm_tick alarm_time was_before current_time).1 ::
      alarm_fires alarm_time (alarm_tick alarm_time was_before current_time).2 rest

/-- How many ticks of a run fire the alarm. -/
def fire_count (alarm_time : Time) (times : List Time) : Nat :=
  (alarm_fires alarm_time false times).count true

/-! ### Time-argument parser (`convert_to_time_int`, `extract_time_from_args`) -/

/-- Value of a decimal digit character, as Python's `int` reads it. -/
def digitVal (c : Char) : Nat := c.toNat - 48

/-- Value of a string of decimal digits (most significant first). -/
def digitsVal (s : List Char) : Nat :=
  s.foldl (fun acc c => 10 * acc + digitVal c) 0

/-- Digits part of Python's `int(str)`: a nonempty all-digit string parses to
its value, anything else raises `ValueError` (modelled as `none`). -/
def pyIntDigits (s : List Char) : Option Nat :=
  if !s.isEmpty && s.all Char.isDigit then some (digitsVal s) else none

/-- Model of Python's `int(str)` as used by `convert_to_time_int` (line 178):
an optional sign followed by decimal digits. (The builtin also tolerates
surrounding whitespace and interior underscores; those corners are not
modelled.) -/
def pyInt (s : List Char) : Option Int :=
  if s.head? = some '-' then (pyIntDigits s.tail).map (fun n => -(n : Int))
  else if s.head? = some '+' then (pyIntDigits s.tail).map (fun n => (n : Int))
  else (pyIntDigits s).map (fun n => (n : Int))

/-- The three keys of the `max_for_time_unit` dict (line 174). -/
inductive TimeUnit
  | hours
  | minutes
  | seconds
deriving DecidableEq

/-- `max_for_time_unit = {'hours': 23, 'minutes': 59, 'seconds': 59}`. -/
def max_for_time_unit : TimeUnit → Nat
  | .hours => 23
  | .minutes => 59
  | .seconds => 59

/-- `convert_to_time_int` (lines 169-188): parse `in_value` as an int and
range-check it for `time_unit`; every `raise ValueError` becomes `none`
(the caller catches it). -/
def convert_to_time_int (in_value : List Char) (time_unit : TimeUnit) : Option Nat :=
  match pyInt in_value with
  | none => none
  | some int_val =>
    if int_val < 0 then none
    else if (max_for_time_unit time_unit : Int) < int_val then none
    else some int_val.toNat

/-- Python's `str.split(':')` on a string: `n` separators yield `n + 1` pieces,
empty pieces included, and the empty string yields `[""]`. -/
def splitOnColon : List Char → List (List Char)
  | [] => [[]]
  | c :: cs =>
    let r := splitOnColon cs
    if c = ':' then [] :: r
    else
      match r with
      | [] => [[c]]
      | g :: gs => (c :: g) :: gs

/-- How the user writes one command-line token holding several colon-separated
fields: the fields joined by `':'`. -/
def joinColon : List (List Char) → List Char
  | [] => []
  | [f] => f
  | f :: fs => f ++ ':' :: joinColon fs

/-- Lines 198-204: split every command-line token (after the program name) on
`':'` and concatenate the pieces in order. -/
def split_time_args (argv_tail : List (List Char)) : List (List Char) :=
  (argv_tail.map splitOnColon).flatten

/-- Which unit `extract_time_from_args` converts the field at each position
with (lines 208-212): field 0 is hours, field 1 minutes, field 2 seconds. -/
def field_unit : Nat → TimeUnit
  | 0 => .hours
  | 1 => .minutes
  | _ => .seconds

/-- `extract_time_from_args` (lines 191-219): needs at least two resulting
fields; hours and minutes are converted and range-checked, seconds default to
`0` when absent; any `ValueError` is caught and printed and the function
returns `None` ("no alarm"). Fields past the third are never looked at. -/
def extract_time_from_args (argv_tail : List (List Char)) : Option Time :=
  match split_time_args argv_tail with
  | f0 :: f1 :: rest =>
    match convert_to_time_int f0 .hours, convert_to_time_int f1 .minutes,
        (match rest with
         | [] => some 0
         | f2 :: _ => convert_to_time_int f2 .seconds) with
    | some hours, some minutes, some seconds => some ⟨hours, minutes, seconds⟩
    | _, _, _ => none
  | _ => none

/-! ### Digital clock renderer (`make_text_image`, `make_clock_image`) -/

/-- The payload of the digital render: the text drawn and its pixel offset
(`make_text_image` draws `text_to_draw` at `(x, y)` in white on an opaque
black canvas of the display's dimensions). -/
structure TextImage where
  text : List Char
  x : Int
  y : Int
deriving DecidableEq

/-- `make_text_image` (lines 45-67), abstracted to its deterministic payload. -/
def make_text_image (text_to_draw : List Char) (x y : Int) : TextImage :=
  ⟨text_to_draw, x, y⟩

/-- Line 42: the example ships with the digital clock selected. -/
def SHOW_ANALOG_CLOCK : Bool := false

/-- Character of a decimal digit. -/
def digitChar (d : Nat) : Char := Char.ofNat (48 + d)

/-- Two-digit zero-padded decimal rendering used by `strftime`. -/
def pad2 (n : Nat) : List Char := [digitChar (n / 10 % 10), digitChar (n % 10)]

/-- `%I`: hour on the 12-hour clock, `01`-`12`. -/
def hour12 (hour : Nat) : Nat := if hour % 12 = 0 then 12 else hour % 12

/-- `time.strftime("%I:%M:%S %p")` (line 127) applied to a wall-clock time:
zero-padded 12-hour time with an AM/PM suffix. -/
def strftime_IMSp (wall_clock : Time) : List Char :=
  pad2 (hour12 wall_clock.hour) ++ ':' :: pad2 wall_clock.minute ++
    ':' :: pad2 wall_clock.second ++
    (if wall_clock.hour < 12 then (" AM").toList else (" PM").toList)

/-- `make_clock_image` (lines 117-130) with `SHOW_ANALOG_CLOCK = False`: the
digital branch returns `make_text_image(time_text, 8, 6, _clock_font)`.
`time_text` is computed by `time.strftime` with no time argument, i.e. from
the ambient wall clock at the moment of the call (modelled as the extra
`wall_clock` input), not from the `current_time` parameter, even though the
docstring documents the parameter as "the time to display". -/
def make_clock_image (wall_clock : Time) (current_time : Time) : TextImage :=
  make_text_image (strftime_IMSp wall_clock) 8 6

/-! ### Analog clock geometry (`make_clock_image` lines 138-159,
`draw_clock_hand` lines 82-114) -/

/-- `text_height = 9` (line 139). -/
def text_height : ℚ := 9

/-- Line 147: `sec_hand_length = (analog_width if (analog_width <
analog_height) else analog_height) * 0.5` with `analog_width = screen_width`
and `analog_height = screen_height - text_height`. -/
def sec_hand_length (screen_width screen_height : Nat) : ℚ :=
  (if (screen_width : ℚ) < (screen_height : ℚ) - text_height
    then (screen_width : ℚ) else (screen_height : ℚ) - text_height) * 0.5

/-- Line 148: `min_hand_length = 0.85 * sec_hand_length`. -/
def min_hand_length (screen_width screen_height : Nat) : ℚ :=
  0.85 * sec_hand_length screen_width screen_height

/-- Line 149: `hour_hand_length = 0.7 * sec_hand_length`. -/
def hour_hand_length (screen_width screen_height : Nat) : ℚ :=
  0.7 * sec_hand_length screen_width screen_height

/-- Line 152: `sec_ratio = current_time.second / 60.0`. -/
noncomputable def sec_ratio (second : Nat) : ℝ := (second : ℝ) / 60

/-- Line 153: `min_ratio = (current_time.minute + sec_ratio) / 60.0`. -/
noncomputable def min_ratio (minute second : Nat) : ℝ :=
  ((minute : ℝ) + sec_ratio second) / 60

/-- Line 154: `hour_ratio = (current_time.hour + min_ratio) / 12.0`. -/
noncomputable def hour_ratio (hour minute second : Nat) : ℝ :=
  ((hour : ℝ) + min_ratio minute second) / 12

/-- Line 93: `hand_angle = circle_ratio * math.pi * 2.0`. -/
noncomputable def hand_angle (circle_ratio : ℝ) : ℝ :=
  circle_ratio * Real.pi * 2

/-- Line 99: `x_scalar = 2.0`, doubling of x offsets for the interlaced
2:1 display aspect ratio. -/
def x_scalar : ℝ := 2

/-- Line 107: `hand_width_ratio = 0.1`. -/
noncomputable def hand_width_ratio : ℝ := 0.1

/-- Python's `int()` applied to a float: truncation toward zero. -/
noncomputable def pyTruncate (x : ℝ) : ℤ := if 0 ≤ x then ⌊x⌋ else ⌈x⌉

/-- Line 94: `vec_x = hand_length * math.sin(hand_angle)`. -/
noncomputable def hand_vec_x (circle_ratio hand_length : ℝ) : ℝ :=
  hand_length * Real.sin (hand_angle circle_ratio)

/-- Line 95: `vec_y = -hand_length * math.cos(hand_angle)`. -/
noncomputable def hand_vec_y (circle_ratio hand_length : ℝ) : ℝ :=
  -hand_length * Real.cos (hand_angle circle_ratio)

/-- The triangle `draw_clock_hand` fills (lines 101-114): the tip point and
the two base points, each coordinate truncated to an int by `int(...)`. -/
noncomputable def draw_clock_hand (cen_x cen_y circle_ratio hand_length : ℝ) :
    (ℤ × ℤ) × (ℤ × ℤ) × (ℤ × ℤ) :=
  let vec_x := hand_vec_x circle_ratio hand_length
  let vec_y := hand_vec_y circle_ratio hand_length
  ((pyTruncate (cen_x + x_scalar * vec_x), pyTruncate (cen_y + vec_y)),
   (pyTruncate (cen_x - (x_scalar * vec_y) * hand_width_ratio),
    pyTruncate (cen_y + vec_x * hand_width_ratio)),
   (pyTruncate (cen_x + (x_scalar * vec_y) * hand_width_ratio),
    pyTruncate (cen_y - vec_x * hand_width_ratio)))

/-! ### Display update tick (`alarm_clock`, lines 296-305) -/

/-- The condition of line 298: render when nothing has been displayed yet or
the sampled second changed. -/
def needs_update (current_time : Time) (last_displayed_time : Option Time) : Bool :=
  match last_displayed_time with
  | none => true
  | some last => decide (current_time.second ≠ last.second)

/-- One non-alarm tick of the loop (lines 296-305): when an update is needed,
build the image for this tick, push it with a 1000.0 ms hold and record
`last_displayed_time = current_time`; otherwise leave both alone. Returns
(new `last_displayed_time`, pushed image and hold if any). -/
def display_tick (wall_clock current_time : Time)
    (last_displayed_time : Option Time) :
    Option Time × Option (TextImage × ℚ) :=
  if needs_update current_time last_displayed_time then
    (some current_time, some (make_clock_image wall_clock current_time, 1000.0))
  else (last_displayed_time, none)

/-! ### Robot actions on an alarm firing (`perform_operation_off_charger`
lines 239-253, `alarm_clock` lines 289-293) -/

/-- The robot calls the firing performs, in order. -/
inductive RobotAction
  | driveOffChargerContacts
  | sayText (msg : List Char)
  | backupOntoCharger
deriving DecidableEq

/-- The robot's docking status, the one piece of state the claim is about. -/
structure RobotState where
  is_on_charger : Bool
deriving DecidableEq

/-- The polling loop of `backup_onto_charger` (lines 229-236): while
`time_waited < 3.0` and the robot is not on the charger, sleep 0.1 s and add
`sleep_time_s = 0.1` to `time_waited`. `env j` is the physical
`robot.is_on_charger` reading at the j-th condition check; the physical
outcome of reverse-driving is outside the program, so it is an input here.
The first argument is the index of the next check (`time_waited = 0.1 * i`),
the second counts the checks that can still pass the `time_waited < 3.0` test
(with exact arithmetic, checks 0-29 read the status, check 30 fails the time
test first — binary-float accumulation of the Python original could shift
the count by one, which nothing below depends on). The value returned is the
docking status when the call returns: `true` on contact (the loop stops with
the robot on the charger and `stop_all_motors` holds it there), and the
ambient reading at exit on timeout. -/
def backup_loop (env : Nat → Bool) : Nat → Nat → Bool
  | i, 0 => env i
  | i, fuel + 1 => if env i then true else backup_loop env (i + 1) fuel

/-- `backup_onto_charger` (lines 222-236): drive backwards and poll the
charger contacts for at most 3 seconds; the robot ends docked only if contact
happens within the window. Returns the docking status at return time. -/
def backup_onto_charger (env : Nat → Bool) : Bool := backup_loop env 0 30

/-- The effect of each robot call on the docking status.
`driveOffChargerContacts` and `sayText` are SDK primitives outside `src/`,
modelled from the spec: driving off the contacts undocks, speech does not
move the robot. `backupOntoCharger` runs the `src/` polling loop
`backup_onto_charger`, whose outcome depends on the environment readings
`env` (at most one backup occurs per trace below, so one reading sequence
suffices). -/
def applyAction (env : Nat → Bool) (s : RobotState) : RobotAction → RobotState
  | .driveOffChargerContacts => ⟨false⟩
  | .sayText _ => s
  | .backupOntoCharger => ⟨backup_onto_charger env⟩

/-- Run a sequence of robot calls from a starting state. -/
def execActions (env : Nat → Bool) (s : RobotState) : List RobotAction → RobotState
  | [] => s
  | a :: rest => execActions env (applyAction env s a) rest

/-- `perform_operation_off_charger` (lines 239-253) as the call trace it
produces around a body: remember `was_on_charger`, drive off the contacts,
run the body, and back up onto the charger only if it was docked before. -/
def perform_operation_off_charger (s : RobotState) (body : List RobotAction) :
    List RobotAction :=
  RobotAction.driveOffChargerContacts ::
    body ++ (if s.is_on_charger then [RobotAction.backupOntoCharger] else [])

/-- Apostrophe character (written by code point to keep it out of string
literals). -/
def apos : Char := Char.ofNat 39

/-- Line 292: `short_time_string = str(current_time.hour) + ":" +
str(current_time.minute)` — the truncated, unpadded hour and minute. -/
def short_time_chars (t : Time) : List Char :=
  Nat.toDigits 10 t.hour ++ ':' :: Nat.toDigits 10 t.minute

/-- Line 293: the spoken announcement text. -/
def wake_up_message (t : Time) : List Char :=
  ("Wake up lazy human! it").toList ++ apos :: 's' :: ' ' :: short_time_chars t

/-- Lines 289-293: the robot calls one alarm firing performs, given the
docking state at its start and the sampled current time. -/
def alarm_fire_actions (s : RobotState) (current_time : Time) : List RobotAction :=
  perform_operation_off_charger s [RobotAction.sayText (wake_up_message current_time)]

/-! ## Lemmas about the time comparison -/

/-- `timeLt` decides the lexicographic strict order on the field triples. -/
lemma timeLt_iff (a b : Time) : timeLt a b = true ↔
    (a.hour < b.hour ∨ (a.hour = b.hour ∧
      (a.minute < b.minute ∨ (a.minute = b.minute ∧ a.second < b.second)))) := by
  simp [timeLt]

lemma timeLt_false_iff (a b : Time) : timeLt a b = false ↔
    ¬ (a.hour < b.hour ∨ (a.hour = b.hour ∧
      (a.minute < b.minute ∨ (a.minute = b.minute ∧ a.second < b.second)))) := by
  rw [← timeLt_iff a b]
  cases timeLt a b <;> simp

lemma timeLe_trans {a b c : Time} (h1 : timeLe a b) (h2 : timeLe b c) :
    timeLe a c := by
  unfold timeLe at *
  rw [timeLt_false_iff] at *
  omega

lemma chain_timeLe_head {t : Time} {ts : List Time}
    (h : List.Chain' timeLe (t :: ts)) : ∀ x ∈ ts, timeLe t x := by
  induction ts generalizing t with
  | nil => simp
  | cons u us ih =>
    rw [List.chain'_cons] at h
    intro x hx
    rcases List.mem_cons.mp hx with rfl | hx
    · exact h.1
    · exact timeLe_trans h.1 (ih h.2 x hx)

/-! ## Lemmas about the edge detect -/

lemma alarm_fires_cons (alarm_time : Time) (was : Bool) (t : Time) (ts : List Time) :
    alarm_fires alarm_time was (t :: ts) =
      (was && !timeLt t alarm_time) ::
        alarm_fires alarm_time (timeLt t alarm_time) ts := rfl

/-- Once every remaining sample is at or after the alarm and the flag is
down, the loop never fires again. -/
lemma fires_zero_of_all_after (alarm_time : Time) :
    ∀ ts : List Time, (∀ x ∈ ts, timeLt x alarm_time = false) →
      (alarm_fires alarm_time false ts).count true = 0 := by
  intro ts
  induction ts with
  | nil => intro _; rfl
  | cons t ts ih =>
    intro h
    have ht := h t (List.mem_cons_self t ts)
    rw [alarm_fires_cons, ht]
    simp only [Bool.false_and, List.count_cons]
    rw [ih (fun x hx => h x (List.mem_cons_of_mem t hx))]
    simp

/-- While every remaining sample is before the alarm, the loop never fires,
whatever the flag. -/
lemma fires_zero_of_all_before (alarm_time : Time) :
    ∀ (ts : List Time) (was : Bool), (∀ x ∈ ts, timeLt x alarm_time = true) →
      (alarm_fires alarm_time was ts).count true = 0 := by
  intro ts
  induction ts with
  | nil => intro _ _; rfl
  | cons t ts ih =>
    intro was h
    have ht := h t (List.mem_cons_self t ts)
    rw [alarm_fires_cons, ht]
    simp only [Bool.not_true, Bool.and_false, List.count_cons]
    rw [ih true (fun x hx => h x (List.mem_cons_of_mem t hx))]
    simp

/-- Over a non-decreasing run of samples the loop fires at most once, from
any starting flag. -/
lemma fires_le_one_of_chain (alarm_time : Time) :
    ∀ ts : List Time, List.Chain' timeLe ts → ∀ was : Bool,
      (alarm_fires alarm_time was ts).count true ≤ 1 := by
  intro ts
  induction ts with
  | nil => intro _ _; simp [alarm_fires]
  | cons t ts ih =>
    intro hchain was
    rcases ht : timeLt t alarm_time with hf | htr
    · -- `t` is at or after the alarm: every later sample is too
      have hafter : ∀ x ∈ ts, timeLt x alarm_time = false := fun x hx =>
        timeLe_trans ht (chain_timeLe_head hchain x hx)
      rw [alarm_fires_cons, ht]
      simp only [Bool.not_false, Bool.and_true, List.count_cons]
      rw [fires_zero_of_all_after alarm_time ts hafter]
      cases was <;> simp
    · rw [alarm_fires_cons, ht]
      simp only [Bool.not_true, Bool.and_false, List.count_cons]
      have := ih hchain.tail true
      simpa using this

/-- With the flag up, a non-decreasing run whose last sample is at or after
the alarm fires exactly once. -/
lemma fires_one_of_armed (alarm_time : Time) :
    ∀ ts : List Time, List.Chain' timeLe ts → ∀ z : Time,
      ts.getLast? = some z → timeLt z alarm_time = false →
      (alarm_fires alarm_time true ts).count true = 1 := by
  intro ts
  induction ts with
  | nil => intro _ z hz _; simp at hz
  | cons u us ih =>
    intro hchain z hz hzf
    rcases hu : timeLt u alarm_time with huf | hut
    · -- crossing happens right here, and never again afterwards
      have hafter : ∀ x ∈ us, timeLt x alarm_time = false := fun x hx =>
        timeLe_trans hu (chain_timeLe_head hchain x hx)
      rw [alarm_fires_cons, hu]
      simp only [Bool.not_false, Bool.and_true, List.count_cons]
      rw [fires_zero_of_all_after alarm_time us hafter]
      simp
    · -- still before the alarm here; the last sample is further on
      cases us with
      | nil =>
        simp only [List.getLast?_singleton, Option.some.injEq] at hz
        rw [← hz] at hzf
        rw [hu] at hzf
        exact absurd hzf (by simp)
      | cons v vs =>
        rw [List.getLast?_cons_cons] at hz
        rw [alarm_fires_cons, hu]
        simp only [Bool.not_true, Bool.and_false, List.count_cons]
        rw [ih hchain.tail z hz hzf]
        simp

/-- Position-wise description of the fire stream: the decision at index `i`
only looks at the flag (for `i = 0`) or the previous sample, and the current
sample. -/
lemma alarm_fires_getD (alarm_time : Time) :
    ∀ (ts : List Time) (was : Bool) (i : Nat), i < ts.length →
      (alarm_fires alarm_time was ts).getD i false =
        ((if i = 0 then was else timeLt (ts.getD (i - 1) dummyTime) alarm_time) &&
          !timeLt (ts.getD i dummyTime) alarm_time) := by
  intro ts
  induction ts with
  | nil => intro _ i hi; simp at hi
  | cons t ts ih =>
    intro was i hi
    cases i with
    | zero => simp [alarm_fires_cons]
    | succ j =>
      rw [alarm_fires_cons]
      simp only [List.getD_cons_succ]
      rw [ih (timeLt t alarm_time) j (by simpa using hi)]
      cases j with
      | zero => simp
      | succ k => simp

/-! ## Claim C1 -/

/-- Claim C1, counterexample to the claim as stated: the loop does re-arm and
can fire more than once. With the alarm at 12:00:00 and sampled times
11:00:00, 12:00:00, 11:00:00, 12:00:00 (the time of day goes back below the
alarm, as it does when the process runs past midnight), the loop fires on the
second and on the fourth tick: two firings, not exactly one. -/
theorem C1_counterexample_refires :
    fire_count ⟨12, 0, 0⟩ [⟨11, 0, 0⟩, ⟨12, 0, 0⟩, ⟨11, 0, 0⟩, ⟨12, 0, 0⟩] = 2 ∧
    alarm_fires ⟨12, 0, 0⟩ false [⟨11, 0, 0⟩, ⟨12, 0, 0⟩, ⟨11, 0, 0⟩, ⟨12, 0, 0⟩] =
      [false, true, false, true] := by
  exact ⟨by decide, by decide⟩

/-- Claim C1 (amended: restricted to non-decreasing sample sequences, i.e. a
single day's samples, and with "exactly once" split by whether the run crosses
the alarm). For every alarm time and every non-decreasing sequence of sampled
clock times: the loop fires at most once; it never fires when the first sample
is already at or after the alarm; it fires exactly once when the first sample
is before the alarm and the last is at or after it; and it fires only on a
tick whose previous sample was strictly before the alarm time while the
current sample is at or after it (never on the first tick). -/
theorem C1_edge_detect_amended (alarm_time : Time) (times : List Time)
    (hmono : List.Chain' timeLe times) :
    fire_count alarm_time times ≤ 1 ∧
    (∀ t0 ts, times = t0 :: ts → timeLt t0 alarm_time = false →
      fire_count alarm_time times = 0) ∧
    (∀ t0 ts z, times = t0 :: ts → timeLt t0 alarm_time = true →
      times.getLast? = some z → timeLt z alarm_time = false →
      fire_count alarm_time times = 1) ∧
    (∀ i, i < times.length →
      ((alarm_fires alarm_time false times).getD i false = true ↔
        0 < i ∧ timeLt (times.getD (i - 1) dummyTime) alarm_time = true ∧
          timeLt (times.getD i dummyTime) alarm_time = false)) := by
  refine ⟨fires_le_one_of_chain alarm_time times hmono false, ?_, ?_, ?_⟩
  · rintro t0 ts rfl ht0
    have hafter : ∀ x ∈ ts, timeLt x alarm_time = false := fun x hx =>
      timeLe_trans ht0 (chain_timeLe_head hmono x hx)
    unfold fire_count
    rw [alarm_fires_cons, ht0]
    simp only [Bool.not_false, Bool.and_true, Bool.false_and, List.count_cons]
    rw [fires_zero_of_all_after alarm_time ts hafter]
    simp
  · rintro t0 ts z rfl ht0 hz hzf
    cases ts with
    | nil =>
      simp only [List.getLast?_singleton, Option.some.injEq] at hz
      rw [← hz] at hzf
      rw [ht0] at hzf
      exact absurd hzf (by simp)
    | cons v vs =>
      rw [List.getLast?_cons_cons] at hz
      unfold fire_count
      rw [alarm_fires_cons, ht0]
      simp only [Bool.not_true, Bool.and_false, List.count_cons]
      rw [fires_one_of_armed alarm_time (v :: vs) hmono.tail z hz hzf]
      simp
  · intro i hi
    rw [alarm_fires_getD alarm_time times false i hi]
    cases i with
    | zero => simp
    | succ j =>
      simp only [Nat.succ_ne_zero, if_false, Bool.and_eq_true,
        Bool.not_eq_true', Nat.succ_sub_one]
      constructor
      · rintro ⟨h1, h2⟩; exact ⟨Nat.succ_pos j, h1, h2⟩
      · rintro ⟨_, h1, h2⟩; exact ⟨h1, h2⟩

/-- Claim C1, witness for the amended theorem: alarm 07:30:00, samples
07:29:59, 07:30:00, 07:30:01 — a monotone run crossing the alarm fires
exactly once. -/
theorem C1_edge_detect_witness :
    fire_count ⟨7, 30, 0⟩ [⟨7, 29, 59⟩, ⟨7, 30, 0⟩, ⟨7, 30, 1⟩] = 1 :=
  (C1_edge_detect_amended ⟨7, 30, 0⟩ [⟨7, 29, 59⟩, ⟨7, 30, 0⟩, ⟨7, 30, 1⟩]
      (by simp [List.chain'_cons, timeLe, timeLt])).2.2.1
    ⟨7, 29, 59⟩ [⟨7, 30, 0⟩, ⟨7, 30, 1⟩] ⟨7, 30, 1⟩ rfl (by decide) (by decide)
    (by decide)

/-! ## Lemmas about the time-argument parser -/

lemma digit_ne_colon {c : Char} (h : c.isDigit = true) : c ≠ ':' := by
  rintro rfl; exact absurd h (by decide)

lemma digit_ne_minus {c : Char} (h : c.isDigit = true) : c ≠ '-' := by
  rintro rfl; exact absurd h (by decide)

lemma digit_ne_plus {c : Char} (h : c.isDigit = true) : c ≠ '+' := by
  rintro rfl; exact absurd h (by decide)

/-- A colon-free string splits into just itself. -/
lemma splitOnColon_no_colon : ∀ f : List Char, ':' ∉ f → splitOnColon f = [f] := by
  intro f
  induction f with
  | nil => intro _; rfl
  | cons c cs ih =>
    intro h
    have hc : c ≠ ':' := fun hcc => h (hcc ▸ List.mem_cons_self c cs)
    have hcs : ':' ∉ cs := fun hm => h (List.mem_cons_of_mem c hm)
    simp only [splitOnColon, if_neg hc, ih hcs]

/-- Splitting walks past a colon-free prefix and the separator after it. -/
lemma splitOnColon_append : ∀ f rest : List Char, ':' ∉ f →
    splitOnColon (f ++ ':' :: rest) = f :: splitOnColon rest := by
  intro f
  induction f with
  | nil => intro rest _; simp [splitOnColon]
  | cons c cs ih =>
    intro rest h
    have hc : c ≠ ':' := fun hcc => h (hcc ▸ List.mem_cons_self c cs)
    have hcs : ':' ∉ cs := fun hm => h (List.mem_cons_of_mem c hm)
    simp only [List.cons_append, splitOnColon, if_neg hc, List.append_eq]
    rw [ih rest hcs]

/-- Splitting on `':'` undoes joining with `':'` for nonempty groups of
colon-free fields. -/
lemma splitOnColon_joinColon : ∀ g : List (List Char), g ≠ [] →
    (∀ f ∈ g, ':' ∉ f) → splitOnColon (joinColon g) = g := by
  intro g
  induction g with
  | nil => intro h _; exact absurd rfl h
  | cons f fs ih =>
    intro _ h
    cases fs with
    | nil => exact splitOnColon_no_colon f (h f (List.mem_cons_self f []))
    | cons f2 fs2 =>
      have hf : ':' ∉ f := h f (List.mem_cons_self f (f2 :: fs2))
      show splitOnColon (f ++ ':' :: joinColon (f2 :: fs2)) = f :: f2 :: fs2
      rw [splitOnColon_append f (joinColon (f2 :: fs2)) hf]
      rw [ih (by simp) (fun x hx => h x (List.mem_cons_of_mem f hx))]

/-- Splitting the written tokens recovers the flat field list, whatever the
grouping of fields into tokens. -/
lemma split_time_args_of_grouping : ∀ gs : List (List (List Char)),
    (∀ g ∈ gs, g ≠ []) → (∀ g ∈ gs, ∀ f ∈ g, ':' ∉ f) →
    split_time_args (gs.map joinColon) = gs.flatten := by
  intro gs
  induction gs with
  | nil => intro _ _; rfl
  | cons g gs ih =>
    intro hne hcf
    show splitOnColon (joinColon g) ++ split_time_args (gs.map joinColon) =
      g ++ gs.flatten
    rw [splitOnColon_joinColon g (hne g (List.mem_cons_self g gs))
      (hcf g (List.mem_cons_self g gs))]
    rw [ih (fun x hx => hne x (List.mem_cons_of_mem g hx))
      (fun x hx => hcf x (List.mem_cons_of_mem g hx))]

/-- A nonempty all-digit field parses to its decimal value. -/
lemma pyInt_digits {f : List Char} (hne : f ≠ []) (hd : f.all Char.isDigit = true) :
    pyInt f = some (digitsVal f : Int) := by
  cases f with
  | nil => exact absurd rfl hne
  | cons c cs =>
    have hc : c.isDigit = true := by
      have := List.all_eq_true.mp hd c (List.mem_cons_self c cs)
      simpa using this
    unfold pyInt
    rw [if_neg (by simp [digit_ne_minus hc]), if_neg (by simp [digit_ne_plus hc])]
    unfold pyIntDigits
    rw [if_pos (by simp [hd])]
    rfl

/-- A nonempty all-digit field whose value is within range converts. -/
lemma convert_to_time_int_digits {f : List Char} {u : TimeUnit}
    (hne : f ≠ []) (hd : f.all Char.isDigit = true)
    (hle : digitsVal f ≤ max_for_time_unit u) :
    convert_to_time_int f u = some (digitsVal f) := by
  unfold convert_to_time_int
  rw [pyInt_digits hne hd]
  show (if ((digitsVal f : Int)) < 0 then none
    else if ((max_for_time_unit u : Int)) < (digitsVal f : Int) then none
    else some ((digitsVal f : Int)).toNat) = some (digitsVal f)
  have h1 : ¬ ((digitsVal f : Int) < 0) := by simp
  have h2 : ¬ ((max_for_time_unit u : Int) < (digitsVal f : Int)) := by
    exact_mod_cast not_lt.mpr hle
  rw [if_neg h1, if_neg h2]
  simp

/-- A field in a grouping of digit fields is one of those fields, hence
colon-free. -/
lemma grouping_colon_free {gs : List (List (List Char))} {fields : List (List Char)}
    (hj : gs.flatten = fields) (hd : ∀ f ∈ fields, ':' ∉ f) :
    ∀ g ∈ gs, ∀ f ∈ g, ':' ∉ f := by
  intro g hg f hf
  exact hd f (hj ▸ List.mem_flatten.mpr ⟨g, hg, hf⟩)

lemma all_digit_colon_free {f : List Char} (hd : f.all Char.isDigit = true) :
    ':' ∉ f := by
  intro hmem
  have := List.all_eq_true.mp hd ':' hmem
  exact absurd this (by decide)

/-- What the parser returns once the field list starts with three fields. -/
lemma extract_time_eq3 (argv_tail : List (List Char)) (f0 f1 f2 : List Char)
    (rest : List (List Char))
    (h : split_time_args argv_tail = f0 :: f1 :: f2 :: rest) :
    extract_time_from_args argv_tail =
      match convert_to_time_int f0 .hours, convert_to_time_int f1 .minutes,
          convert_to_time_int f2 .seconds with
      | some hours, some minutes, some seconds => some ⟨hours, minutes, seconds⟩
      | _, _, _ => none := by
  unfold extract_time_from_args
  rw [h]

/-- What the parser returns once the field list has at least two fields. -/
lemma extract_time_eq_cons (argv_tail : List (List Char)) (f0 f1 : List Char)
    (rest : List (List Char))
    (h : split_time_args argv_tail = f0 :: f1 :: rest) :
    extract_time_from_args argv_tail =
      match convert_to_time_int f0 .hours, convert_to_time_int f1 .minutes,
          (match rest with
           | [] => some 0
           | f2 :: _ => convert_to_time_int f2 .seconds) with
      | some hours, some minutes, some seconds => some ⟨hours, minutes, seconds⟩
      | _, _, _ => none := by
  unfold extract_time_from_args
  rw [h]

/-- What the parser returns on exactly two fields: seconds default to `0`. -/
lemma extract_time_eq2 (argv_tail : List (List Char)) (f0 f1 : List Char)
    (h : split_time_args argv_tail = [f0, f1]) :
    extract_time_from_args argv_tail =
      match convert_to_time_int f0 .hours, convert_to_time_int f1 .minutes,
          (some 0 : Option Nat) with
      | some hours, some minutes, some seconds => some ⟨hours, minutes, seconds⟩
      | _, _, _ => none := by
  unfold extract_time_from_args
  rw [h]

/-- One bad conversion makes `convert_to_time_int` raise (return `none`). -/
lemma convert_to_time_int_none {f : List Char} {u : TimeUnit}
    (hbad : pyInt f = none ∨ ∃ v : Int, pyInt f = some v ∧
      (v < 0 ∨ (max_for_time_unit u : Int) < v)) :
    convert_to_time_int f u = none := by
  unfold convert_to_time_int
  rcases hbad with h | ⟨v, hv, hcase⟩
  · rw [h]
  · rw [hv]
    show (if v < 0 then none
      else if (max_for_time_unit u : Int) < v then none else some v.toNat) = none
    by_cases h0 : v < 0
    · rw [if_pos h0]
    · rw [if_neg h0]
      rcases hcase with hneg | hmax
      · exact absurd hneg h0
      · rw [if_pos hmax]

/-! ## Claim C2 -/

/-- Claim C2: for every in-range triple `(h, m, s)` (with `h ≤ 23`,
`m, s ≤ 59`) written as any nonempty digit strings of those values, and for
every way of grouping the fields into command-line tokens joined by `':'`
(space separators are the token boundaries), the parser returns exactly
`(h, m, s)`; when only the two fields for hours and minutes are given,
seconds default to `0`. -/
theorem C2_parser_roundtrip (h m s : Nat) (f0 f1 f2 : List Char)
    (gs3 gs2 : List (List (List Char)))
    (hh : h ≤ 23) (hm : m ≤ 59) (hs : s ≤ 59)
    (hf0ne : f0 ≠ []) (hf0d : f0.all Char.isDigit = true) (hf0v : digitsVal f0 = h)
    (hf1ne : f1 ≠ []) (hf1d : f1.all Char.isDigit = true) (hf1v : digitsVal f1 = m)
    (hf2ne : f2 ≠ []) (hf2d : f2.all Char.isDigit = true) (hf2v : digitsVal f2 = s)
    (hj3 : gs3.flatten = [f0, f1, f2]) (hn3 : ∀ g ∈ gs3, g ≠ [])
    (hj2 : gs2.flatten = [f0, f1]) (hn2 : ∀ g ∈ gs2, g ≠ []) :
    extract_time_from_args (gs3.map joinColon) = some ⟨h, m, s⟩ ∧
    extract_time_from_args (gs2.map joinColon) = some ⟨h, m, 0⟩ := by
  have hcf3 : ∀ f ∈ [f0, f1, f2], ':' ∉ f := by
    intro f hf
    simp only [List.mem_cons, List.not_mem_nil, or_false] at hf
    rcases hf with rfl | rfl | rfl
    · exact all_digit_colon_free hf0d
    · exact all_digit_colon_free hf1d
    · exact all_digit_colon_free hf2d
  have hcf2 : ∀ f ∈ [f0, f1], ':' ∉ f := by
    intro f hf
    simp only [List.mem_cons, List.not_mem_nil, or_false] at hf
    rcases hf with rfl | rfl
    · exact all_digit_colon_free hf0d
    · exact all_digit_colon_free hf1d
  have hsp3 : split_time_args (gs3.map joinColon) = [f0, f1, f2] := by
    rw [split_time_args_of_grouping gs3 hn3 (grouping_colon_free hj3 hcf3), hj3]
  have hsp2 : split_time_args (gs2.map joinColon) = [f0, f1] := by
    rw [split_time_args_of_grouping gs2 hn2 (grouping_colon_free hj2 hcf2), hj2]
  have hc0 : convert_to_time_int f0 .hours = some h := by
    rw [convert_to_time_int_digits hf0ne hf0d (by rw [hf0v]; exact hh), hf0v]
  have hc1 : convert_to_time_int f1 .minutes = some m := by
    rw [convert_to_time_int_digits hf1ne hf1d (by rw [hf1v]; exact hm), hf1v]
  have hc2 : convert_to_time_int f2 .seconds = some s := by
    rw [convert_to_time_int_digits hf2ne hf2d (by rw [hf2v]; exact hs), hf2v]
  constructor
  · rw [extract_time_eq3 _ f0 f1 f2 [] hsp3, hc0, hc1, hc2]
  · rw [extract_time_eq2 _ f0 f1 hsp2, hc0, hc1]

/-- Claim C2, witness: `"7:30:45"` as one token parses to 07:30:45, and the
two tokens `"7" "30"` parse to 07:30:00. -/
theorem C2_parser_roundtrip_witness :
    extract_time_from_args [['7', ':', '3', '0', ':', '4', '5']] = some ⟨7, 30, 45⟩ ∧
    extract_time_from_args [['7'], ['3', '0']] = some ⟨7, 30, 0⟩ :=
  C2_parser_roundtrip 7 30 45 ['7'] ['3', '0'] ['4', '5']
    [[['7'], ['3', '0'], ['4', '5']]] [[['7']], [['3', '0']]]
    (by decide) (by decide) (by decide)
    (by decide) (by decide) (by decide)
    (by decide) (by decide) (by decide)
    (by decide) (by decide) (by decide)
    (by decide) (by decide) (by decide) (by decide)

/-! ## Claim C3 -/

/-- Claim C3: whenever any of the first three resulting fields is non-numeric,
negative, or above its maximum (23 for the hours field, 59 for the minutes and
seconds fields), the parser returns `none` ("no alarm"); the `ValueError` the
conversion raises is caught at the parser's boundary, which is what `none`
models. -/
theorem C3_invalid_field_no_alarm (argv_tail : List (List Char)) (i : Nat)
    (hi3 : i < 3) (hlen : i < (split_time_args argv_tail).length)
    (hbad : pyInt ((split_time_args argv_tail).getD i []) = none ∨
      ∃ v : Int, pyInt ((split_time_args argv_tail).getD i []) = some v ∧
        (v < 0 ∨ (max_for_time_unit (field_unit i) : Int) < v)) :
    extract_time_from_args argv_tail = none := by
  rcases hsp : split_time_args argv_tail with _ | ⟨a, _ | ⟨b, rest2⟩⟩
  · unfold extract_time_from_args
    rw [hsp]
  · unfold extract_time_from_args
    rw [hsp]
  · rw [hsp] at hbad hlen
    rcases i with _ | _ | _ | n
    · have hca : convert_to_time_int a .hours = none :=
        convert_to_time_int_none (by simpa [field_unit] using hbad)
      rw [extract_time_eq_cons argv_tail a b rest2 hsp, hca]
    · have hcb : convert_to_time_int b .minutes = none :=
        convert_to_time_int_none (by simpa [field_unit] using hbad)
      rw [extract_time_eq_cons argv_tail a b rest2 hsp]
      cases convert_to_time_int a .hours with
      | none => rfl
      | some va => rw [hcb]
    · cases rest2 with
      | nil => simp at hlen
      | cons c rest3 =>
        have hcc : convert_to_time_int c .seconds = none :=
          convert_to_time_int_none (by simpa [field_unit] using hbad)
        rw [extract_time_eq3 argv_tail a b c rest3 hsp]
        cases convert_to_time_int a .hours with
        | none => rfl
        | some va =>
          cases convert_to_time_int b .minutes with
          | none => rfl
          | some vb => rw [hcc]
    · omega

/-- Claim C3, witness: the tokens `"25" "00"` (hours field 25 > 23) disable
the alarm. -/
theorem C3_invalid_field_witness :
    extract_time_from_args [['2', '5'], ['0', '0']] = none :=
  C3_invalid_field_no_alarm [['2', '5'], ['0', '0']] 0 (by decide) (by decide)
    (Or.inr ⟨25, by decide, Or.inr (by decide)⟩)

/-! ## Claim C10 -/

/-- Claim C10: the parser looks only at the first three resulting fields —
two argument lists whose field lists agree on the first three fields parse
identically, whatever later fields (valid or not) either of them carries. -/
theorem C10_extra_fields_ignored (argv1 argv2 : List (List Char))
    (f0 f1 f2 : List Char) (r1 r2 : List (List Char))
    (h1 : split_time_args argv1 = f0 :: f1 :: f2 :: r1)
    (h2 : split_time_args argv2 = f0 :: f1 :: f2 :: r2) :
    extract_time_from_args argv1 = extract_time_from_args argv2 := by
  rw [extract_time_eq3 argv1 f0 f1 f2 r1 h1, extract_time_eq3 argv2 f0 f1 f2 r2 h2]

/-- Claim C10, witness: `"11:22:33:99"` parses exactly like `"11:22:33"` — the
out-of-range fourth field 99 is never validated — and yields 11:22:33. -/
theorem C10_extra_fields_witness :
    extract_time_from_args [['1', '1', ':', '2', '2', ':', '3', '3', ':', '9', '9']] =
      extract_time_from_args [['1', '1', ':', '2', '2', ':', '3', '3']] ∧
    extract_time_from_args [['1', '1', ':', '2', '2', ':', '3', '3', ':', '9', '9']] =
      some ⟨11, 22, 33⟩ :=
  ⟨C10_extra_fields_ignored
      [['1', '1', ':', '2', '2', ':', '3', '3', ':', '9', '9']]
      [['1', '1', ':', '2', '2', ':', '3', '3']]
      ['1', '1'] ['2', '2'] ['3', '3'] [['9', '9']] []
      (by decide) (by decide),
    by decide⟩

/-! ## Claim C4 -/

/-- Claim C4: the analog renderer computes the rotation fractions as
`second/60`, `(minute + secondFraction)/60` and `(hour + minuteFraction)/12`,
and turns a fraction into the angle `fraction × 2π`; in particular the
seconds hand is at angle `0` for `second = 0` and at angle `π` for
`second = 30`. -/
theorem C4_hand_rotation (hour minute second : Nat) :
    sec_ratio second = (second : ℝ) / 60 ∧
    min_ratio minute second = ((minute : ℝ) + (second : ℝ) / 60) / 60 ∧
    hour_ratio hour minute second =
      ((hour : ℝ) + ((minute : ℝ) + (second : ℝ) / 60) / 60) / 12 ∧
    hand_angle (sec_ratio second) = ((second : ℝ) / 60) * (2 * Real.pi) ∧
    hand_angle (sec_ratio 0) = 0 ∧
    hand_angle (sec_ratio 30) = Real.pi := by
  refine ⟨rfl, rfl, rfl, ?_, ?_, ?_⟩
  · unfold hand_angle sec_ratio
    ring
  · unfold hand_angle sec_ratio
    norm_num
  · unfold hand_angle sec_ratio
    norm_num
    ring

/-! ## Claim C5 -/

/-- Claim C5 is false of the code and right about the intent: the digital
render is NOT determined by the timestamp argument. `make_clock_image` formats
`time.strftime("%I:%M:%S %p")`, which reads the ambient wall clock at call
time and ignores the `current_time` parameter its docstring documents as "the
time to display". Concretely: called twice with the same timestamp argument
01:02:03 but at wall-clock moments 09:08:07 and 10:08:07, the renderer
produces the texts "09:08:07 AM" and "10:08:07 AM" — two different images for
the same argument. -/
theorem C5_render_reads_wall_clock :
    make_clock_image ⟨9, 8, 7⟩ ⟨1, 2, 3⟩ =
      ⟨['0', '9', ':', '0', '8', ':', '0', '7', ' ', 'A', 'M'], 8, 6⟩ ∧
    make_clock_image ⟨10, 8, 7⟩ ⟨1, 2, 3⟩ =
      ⟨['1', '0', ':', '0', '8', ':', '0', '7', ' ', 'A', 'M'], 8, 6⟩ ∧
    make_clock_image ⟨9, 8, 7⟩ ⟨1, 2, 3⟩ ≠ make_clock_image ⟨10, 8, 7⟩ ⟨1, 2, 3⟩ :=
  ⟨by decide, by decide, by decide⟩

/-! ## Claim C6 -/

/-- Claim C6, counterexample to the claim as stated: on the 128×32 display
the smaller screen dimension is 32, so the claim predicts a seconds-hand
length of 16, but the code first subtracts the 9-pixel text strip from the
height and takes `min(128, 23) × 0.5 = 11.5`. -/
theorem C6_counterexample_text_strip :
    sec_hand_length 128 32 = 23 / 2 ∧
    0.5 * min (128 : ℚ) 32 = 16 ∧
    (23 : ℚ) / 2 ≠ 16 := by
  refine ⟨?_, ?_, ?_⟩
  · norm_num [sec_hand_length, text_height]
  · norm_num
  · norm_num

/-- Claim C6 (amended: the seconds-hand length is half the smaller of the
screen width and the analog-face height, i.e. the screen height minus the
9-pixel digital-text strip — not of the two raw screen dimensions). The
minutes hand is 0.85× and the hours hand 0.7× the seconds hand, as claimed. -/
theorem C6_hand_lengths_amended (screen_width screen_height : Nat) :
    sec_hand_length screen_width screen_height =
      0.5 * min (screen_width : ℚ) ((screen_height : ℚ) - 9) ∧
    min_hand_length screen_width screen_height =
      0.85 * sec_hand_length screen_width screen_height ∧
    hour_hand_length screen_width screen_height =
      0.7 * sec_hand_length screen_width screen_height := by
  refine ⟨?_, rfl, rfl⟩
  unfold sec_hand_length text_height
  rcases lt_or_ge (screen_width : ℚ) ((screen_height : ℚ) - 9) with hlt | hge
  · rw [if_pos hlt, min_eq_left (le_of_lt hlt)]
    ring
  · rw [if_neg (not_lt.mpr hge), min_eq_right hge]
    ring

/-! ## Claim C7 -/

/-- Claim C7: on a non-alarm tick the loop renders and pushes a fresh face
image with a 1000 ms hold exactly when nothing has been rendered yet or the
current second differs from the last rendered one; otherwise it pushes
nothing and leaves the recorded last-displayed time unchanged. -/
theorem C7_display_update_gating (wall_clock current_time : Time)
    (last_displayed_time : Option Time) :
    ((display_tick wall_clock current_time last_displayed_time).2 =
        some (make_clock_image wall_clock current_time, 1000.0) ↔
      (last_displayed_time = none ∨
        ∃ last, last_displayed_time = some last ∧
          current_time.second ≠ last.second)) ∧
    ((last_displayed_time = none ∨
        ∃ last, last_displayed_time = some last ∧
          current_time.second ≠ last.second) →
      display_tick wall_clock current_time last_displayed_time =
        (some current_time,
          some (make_clock_image wall_clock current_time, 1000.0))) ∧
    (display_tick wall_clock current_time last_displayed_time =
        (last_displayed_time, none) ↔
      ∃ last, last_displayed_time = some last ∧
        current_time.second = last.second) := by
  cases last_displayed_time with
  | none =>
    refine ⟨by simp [display_tick, needs_update], ?_, by simp [display_tick, needs_update]⟩
    intro _
    simp [display_tick, needs_update]
  | some last =>
    by_cases hsec : current_time.second = last.second
    · have hnu : needs_update current_time (some last) = false := by
        simp [needs_update, hsec]
      refine ⟨?_, ?_, ?_⟩
      · simp [display_tick, hnu, hsec]
      · rintro (hn | ⟨l, hl, hne⟩)
        · exact absurd hn (by simp)
        · rw [Option.some.injEq] at hl
          exact absurd (hl ▸ hsec) hne
      · simp [display_tick, hnu, hsec]
    · have hnu : needs_update current_time (some last) = true := by
        simp [needs_update, hsec]
      refine ⟨?_, ?_, ?_⟩
      · simp [display_tick, hnu, hsec]
      · intro _
        simp [display_tick, hnu]
      · simp [display_tick, hnu, hsec]

/-! ## Claim C8 -/

/-- `backup_onto_charger` ends with the robot docked exactly when some
polled (or exit-time) `is_on_charger` reading within the 3-second window is
`true`. -/
lemma backup_loop_true_iff (env : Nat → Bool) :
    ∀ (fuel i : Nat), (backup_loop env i fuel = true ↔
      ∃ j, i ≤ j ∧ j ≤ i + fuel ∧ env j = true) := by
  intro fuel
  induction fuel with
  | zero =>
    intro i
    constructor
    · intro h
      exact ⟨i, Nat.le_refl i, by omega, h⟩
    · rintro ⟨j, hij, hji, hj⟩
      have : j = i := by omega
      exact this ▸ hj
  | succ fuel ih =>
    intro i
    cases hi : env i with
    | true =>
      have hstep : backup_loop env i (fuel + 1) = true := by
        simp [backup_loop, hi]
      rw [hstep]
      exact ⟨fun _ => ⟨i, Nat.le_refl i, by omega, hi⟩, fun _ => rfl⟩
    | false =>
      have hstep : backup_loop env i (fuel + 1) = backup_loop env (i + 1) fuel := by
        simp [backup_loop, hi]
      rw [hstep, ih (i + 1)]
      constructor
      · rintro ⟨j, hij, hji, hj⟩
        exact ⟨j, by omega, by omega, hj⟩
      · rintro ⟨j, hij, hji, hj⟩
        have hne : j ≠ i := fun hji2 => by
          rw [hji2] at hj
          rw [hi] at hj
          exact absurd hj (by simp)
        exact ⟨j, by omega, by omega, hj⟩

/-- Claim C8, counterexample to the claim as stated: the redock is only
attempted, not guaranteed. With the robot docked at the start of the firing
and an environment in which the reversing robot never makes charger contact
(every `is_on_charger` reading during the 3-second window is `false`), the
loop in `backup_onto_charger` times out and the firing ends with the robot
off the charger: the docking status is not restored. -/
theorem C8_counterexample_redock_timeout :
    (⟨true⟩ : RobotState).is_on_charger = true ∧
    RobotAction.backupOntoCharger ∈ alarm_fire_actions ⟨true⟩ ⟨7, 0, 0⟩ ∧
    (execActions (fun _ => false) ⟨true⟩
        (alarm_fire_actions ⟨true⟩ ⟨7, 0, 0⟩)).is_on_charger = false :=
  ⟨rfl, by decide, by decide⟩

/-- Claim C8 (amended: the code only attempts the redock, with a 3-second
timeout). On every alarm firing that completes normally: the robot is driven
off the charger contacts before the spoken announcement (the docking status
is `false` when the `sayText` call runs, and a `driveOffChargerContacts`
call precedes it); the redock maneuver is performed afterwards exactly when
the robot was on the charger when the firing began; if it was not on the
charger before, the firing leaves it undocked (status unchanged); and if it
was, the docked status is restored precisely when charger contact occurs
within `backup_onto_charger`'s 3-second polling window — redocking on
timeout is not guaranteed. -/
theorem C8_charger_frame_amended (s : RobotState) (t : Time) (env : Nat → Bool) :
    (RobotAction.backupOntoCharger ∈ alarm_fire_actions s t ↔
      s.is_on_charger = true) ∧
    (∀ i msg,
      (alarm_fire_actions s t).getD i RobotAction.driveOffChargerContacts =
        RobotAction.sayText msg →
      (execActions env s ((alarm_fire_actions s t).take i)).is_on_charger = false ∧
      ∃ j, j < i ∧
        (alarm_fire_actions s t).getD j RobotAction.driveOffChargerContacts =
          RobotAction.driveOffChargerContacts) ∧
    (s.is_on_charger = false →
      (execActions env s (alarm_fire_actions s t)).is_on_charger = false) ∧
    (s.is_on_charger = true →
      ((execActions env s (alarm_fire_actions s t)).is_on_charger = true ↔
        ∃ j, j ≤ 30 ∧ env j = true)) := by
  obtain ⟨b⟩ := s
  cases b with
  | false =>
    have hacts : alarm_fire_actions ⟨false⟩ t =
        [RobotAction.driveOffChargerContacts,
          RobotAction.sayText (wake_up_message t)] := rfl
    refine ⟨?_, ?_, fun _ => rfl, fun hb => absurd hb (by simp)⟩
    · rw [hacts]
      simp
    · intro i msg h
      rw [hacts] at h ⊢
      rcases i with _ | _ | n
      · exact absurd h (by simp)
      · exact ⟨rfl, 0, Nat.zero_lt_one, rfl⟩
      · rw [List.getD_eq_default _ _ (by simp)] at h
        exact absurd h (by simp)
  | true =>
    have hacts : alarm_fire_actions ⟨true⟩ t =
        [RobotAction.driveOffChargerContacts,
          RobotAction.sayText (wake_up_message t),
          RobotAction.backupOntoCharger] := rfl
    refine ⟨?_, ?_, fun hb => absurd hb (by simp), fun _ => ?_⟩
    · rw [hacts]
      simp
    · intro i msg h
      rw [hacts] at h ⊢
      rcases i with _ | _ | _ | n
      · exact absurd h (by simp)
      · exact ⟨rfl, 0, Nat.zero_lt_one, rfl⟩
      · exact absurd h (by simp)
      · rw [List.getD_eq_default _ _ (by simp)] at h
        exact absurd h (by simp)
    · show backup_onto_charger env = true ↔ ∃ j, j ≤ 30 ∧ env j = true
      unfold backup_onto_charger
      rw [backup_loop_true_iff env 30 0]
      constructor
      · rintro ⟨j, _, hj30, hj⟩
        exact ⟨j, by omega, hj⟩
      · rintro ⟨j, hj30, hj⟩
        exact ⟨j, Nat.zero_le j, by omega, hj⟩

/-! ## Claim C9 -/

/-- Claim C9: for every hand angle (given as the travelled circle fraction)
and hand length, the tip of the hand is
`(cen_x + 2·length·sin(angle), cen_y − length·cos(angle))` — the x offset
doubled for the 2:1 aspect ratio — and the two base points of the drawn
triangle are offset from the center by ±0.1 times the hand vector rotated a
quarter turn (x components likewise doubled); each drawn coordinate is the
`int(...)` truncation of that exact value, and the base offset is
perpendicular to the hand vector. -/
theorem C9_hand_geometry (cen_x cen_y circle_ratio hand_length : ℝ) :
    hand_angle circle_ratio = circle_ratio * (2 * Real.pi) ∧
    draw_clock_hand cen_x cen_y circle_ratio hand_length =
      ((pyTruncate (cen_x + 2 * (hand_length * Real.sin (hand_angle circle_ratio))),
        pyTruncate (cen_y - hand_length * Real.cos (hand_angle circle_ratio))),
       (pyTruncate (cen_x + 2 * (0.1 * (hand_length * Real.cos (hand_angle circle_ratio)))),
        pyTruncate (cen_y + 0.1 * (hand_length * Real.sin (hand_angle circle_ratio)))),
       (pyTruncate (cen_x - 2 * (0.1 * (hand_length * Real.cos (hand_angle circle_ratio)))),
        pyTruncate (cen_y - 0.1 * (hand_length * Real.sin (hand_angle circle_ratio))))) ∧
    (0.1 * (-(hand_vec_y circle_ratio hand_length))) *
        hand_vec_x circle_ratio hand_length +
      (0.1 * hand_vec_x circle_ratio hand_length) *
        hand_vec_y circle_ratio hand_length = 0 := by
  refine ⟨by unfold hand_angle; ring, ?_, by unfold hand_vec_x hand_vec_y; ring⟩
  simp only [draw_clock_hand, hand_vec_x, hand_vec_y, x_scalar, hand_width_ratio,
    Prod.mk.injEq]
  refine ⟨⟨?_, ?_⟩, ⟨?_, ?_⟩, ?_, ?_⟩ <;> (congr 1; ring)

end AlarmClock
